import Mathlib

/-!
A shallow embedding of the build-orchestration and repository-publishing
core of the aasemble buildsvc application
(src/aasemble/django/apps/buildsvc/models.py), together with theorems
checking its specification against the embedded code.

Modelling boundary: outcomes of external subprocess invocations (git, gpg,
reprepro) and of the external package builder are supplied by oracle
records, one outcome per invocation site; database saves are assumed to
succeed and are recorded as events where their ordering matters.  Machine
integers do not occur in the modelled code paths (Python integers are
unbounded, modelled by Int).
-/

namespace Buildsvc

/-! ### String helpers mirroring the Python primitives used by the code -/

/-- Python str.endswith, over the character lists of the strings. -/
def endsWithStr (s suf : String) : Bool :=
  List.isSuffixOf suf.toList s.toList

/-- Python str.startswith, over the character lists of the strings. -/
def startsWithStr (s pre : String) : Bool :=
  List.isPrefixOf pre.toList s.toList

/-- String append is associative (via the underlying character lists). -/
theorem str_append_assoc (a b c : String) : a ++ b ++ c = a ++ (b ++ c) := by
  rcases a with ⟨la⟩
  rcases b with ⟨lb⟩
  rcases c with ⟨lc⟩
  show String.mk (la ++ lb ++ lc) = String.mk (la ++ (lb ++ lc))
  rw [List.append_assoc]

/-- Python str(x) for an optional string column: None prints as "None". -/
def pyStrOfOpt : Option String → String
  | none => "None"
  | some s => s

/-- Python truthiness of a nullable string: false for None and for "". -/
def pyTruthy : Option String → Bool
  | none => false
  | some s => s != ""

/-! ### SourceWatcher: PackageSource.poll -/

/-- The Python expression stdout.split(tab)[0]: the text of the first
line up to the first tab character (the whole string when no tab occurs,
the empty string for empty output). -/
def extract_sha (stdout : String) : String :=
  String.mk (stdout.toList.takeWhile (fun c => c != '\t'))

/-- The mutable state touched by PackageSource.poll: the
last_seen_revision column, which is nullable (none models NULL). -/
structure PollState where
  lastSeenRevision : Option String
deriving DecidableEq, Repr

/-- PackageSource.poll, with the stdout of the git ls-remote invocation
supplied as a parameter (a successful remote query is assumed; a failed
run_cmd raises before any of this code runs). -/
def PackageSource.poll (stdout : String) (st : PollState) : Bool × PollState :=
  let sha := extract_sha stdout
  if some sha = st.lastSeenRevision then
    (false, st)
  else
    (true, { lastSeenRevision := some sha })

/-! ### ExternalDependency.deb_line -/

/-- The fields of ExternalDependency read by deb_line.  The components
column is nullable. -/
structure ExternalDependency where
  url : String
  series : String
  components : Option String
deriving DecidableEq, Repr

/-- ExternalDependency.deb_line: percent formatting of url, series and
components. -/
def ExternalDependency.deb_line (d : ExternalDependency) : String :=
  "deb " ++ d.url ++ " " ++ d.series ++ " " ++ pyStrOfOpt d.components

/-! ### Claim theorems for poll and deb_line -/

/-- C1: poll returns true exactly when the extracted remote hash differs
from last_seen_revision; when it returns true the new hash is persisted;
when it returns false no state is mutated; and a second poll seeing the
same remote output returns false and leaves the state of the first poll
unchanged. -/
theorem claim_C1_poll (stdout : String) (st : PollState) :
    ((PackageSource.poll stdout st).1 = true ↔
      some (extract_sha stdout) ≠ st.lastSeenRevision)
    ∧ ((PackageSource.poll stdout st).1 = true →
        (PackageSource.poll stdout st).2.lastSeenRevision
          = some (extract_sha stdout))
    ∧ ((PackageSource.poll stdout st).1 = false →
        (PackageSource.poll stdout st).2 = st)
    ∧ PackageSource.poll stdout (PackageSource.poll stdout st).2
        = (false, (PackageSource.poll stdout st).2) := by
  unfold PackageSource.poll
  by_cases h : some (extract_sha stdout) = st.lastSeenRevision <;>
    simp [h]

/-- Witness for C1 at a concrete remote output and state. -/
theorem claim_C1_poll_witness :
    (PackageSource.poll "abc\trefs/heads/main"
        { lastSeenRevision := some "def" }).2.lastSeenRevision
      = some "abc" :=
  ((claim_C1_poll "abc\trefs/heads/main"
      { lastSeenRevision := some "def" }).2.1 (by decide)).trans (by decide)

/-- C9: on a successful remote query with empty output, poll extracts the
empty string; when last_seen_revision is not already the empty string it
persists the empty string and returns true. -/
theorem claim_C9_empty_output (st : PollState)
    (h : st.lastSeenRevision ≠ some "") :
    PackageSource.poll "" st = (true, { lastSeenRevision := some "" }) := by
  unfold PackageSource.poll
  simp [extract_sha]
  intro hc
  exact absurd hc.symm h

/-- Witness for C9: last_seen_revision previously held a real hash. -/
theorem claim_C9_empty_output_witness :
    PackageSource.poll "" { lastSeenRevision := some "abc123" }
      = (true, { lastSeenRevision := some "" }) :=
  claim_C9_empty_output { lastSeenRevision := some "abc123" } (by decide)

/-- C10: with components unset (NULL), deb_line interpolates the literal
text None in place of the components list. -/
theorem claim_C10_deb_line (u s : String) :
    ExternalDependency.deb_line { url := u, series := s, components := none }
      = "deb " ++ u ++ " " ++ s ++ " None" := by
  show "deb " ++ u ++ " " ++ s ++ " " ++ "None" = "deb " ++ u ++ " " ++ s ++ " None"
  rw [str_append_assoc ("deb " ++ u ++ " " ++ s) " " "None"]
  rfl

/-! ### BuildRecord.logpath -/

/-- Split a character list at every occurrence of a separator character,
mirroring Python str.split with an explicit separator: splitting the
empty string yields one empty piece. -/
def splitOnChar (c : Char) : List Char → List (List Char)
  | [] => [[]]
  | x :: xs =>
    match splitOnChar c xs with
    | [] => [[]]
    | r :: rs => if x = c then [] :: r :: rs else (x :: r) :: rs

/-- PackageSource.long_name: the path component of the git url, split at
slashes, empty pieces dropped, joined with underscores.  The parsed url
path is supplied as a parameter (urlparse is an external library). -/
def PackageSource.long_name (urlPath : String) : String :=
  String.intercalate "_"
    (((splitOnChar '/' urlPath.toList).map (fun cs => String.mk cs)).filter
      (fun s => s != ""))

/-- Python os.path.join for two components: an absolute second component
wins; otherwise a separator is inserted unless the first component is
empty or already ends with a slash. -/
def ospath_join (a b : String) : String :=
  if startsWithStr b "/" then b
  else if a = "" then a ++ b
  else if endsWithStr a "/" then a ++ b
  else a ++ "/" ++ b

/-- BuildRecord.logpath: version-qualified name once version is truthy
(non-empty), otherwise the provisional name carrying the build counter.
The long name of the owning source and the record fields are supplied as
parameters. -/
def BuildRecord.logpath (longName version : String) (buildCounter : Int) :
    String :=
  if version != "" then
    ospath_join longName (longName ++ "_" ++ version ++ ".log")
  else
    ospath_join longName
      (longName ++ "_" ++ toString buildCounter ++ ".tmp.log")

/-- C8: for a build record of a source whose long name is a plain
relative path fragment, the relative log path is
longName/longName_version.log when version is non-empty and
longName/longName_counter.tmp.log when version is empty. -/
theorem claim_C8_logpath (ln version : String) (counter : Int)
    (h0 : ln ≠ "")
    (h1 : endsWithStr ln "/" = false)
    (h2 : startsWithStr (ln ++ "_" ++ version ++ ".log") "/" = false)
    (h3 : startsWithStr (ln ++ "_" ++ toString counter ++ ".tmp.log") "/"
        = false) :
    (version ≠ "" →
      BuildRecord.logpath ln version counter
        = ln ++ "/" ++ (ln ++ "_" ++ version ++ ".log"))
    ∧ (version = "" →
      BuildRecord.logpath ln version counter
        = ln ++ "/" ++ (ln ++ "_" ++ toString counter ++ ".tmp.log")) := by
  constructor
  · intro hv
    unfold BuildRecord.logpath ospath_join
    simp only [str_append_assoc] at h2 ⊢
    simp [hv, h0, h1, h2]
  · intro hv
    subst hv
    unfold BuildRecord.logpath ospath_join
    simp only [str_append_assoc] at h3 ⊢
    simp [h0, h1, h3]

/-- Witness for C8 at the long name computed from a concrete git url
path, a concrete version and a concrete counter. -/
theorem claim_C8_logpath_witness :
    BuildRecord.logpath (PackageSource.long_name "/aasemble/myproj") "1.0" 4
      = "aasemble_myproj/aasemble_myproj_1.0.log" :=
  ((claim_C8_logpath (PackageSource.long_name "/aasemble/myproj") "1.0" 4
      (by decide) (by decide) (by decide) (by decide)).1
    (by decide)).trans (by decide)

/-! ### Changes manifests and remove_ddebs_from_changes -/

/-- One row of a checksum or file section of a changes manifest: the
file name plus the remaining per-row fields (sizes, digests), which the
modelled code never reads. -/
structure ChangesEntry where
  name : String
  rowData : List (String × String)
deriving DecidableEq, Repr

/-- The sections of a changes manifest touched by
remove_ddebs_from_changes, each absent (none) or a row list, plus the
untouched remaining fields of the manifest. -/
structure ChangesFile where
  checksumsSha1 : Option (List ChangesEntry)
  checksumsSha256 : Option (List ChangesEntry)
  files : Option (List ChangesEntry)
  otherFields : List (String × String)
deriving DecidableEq, Repr

/-- The per-section body of remove_ddebs_from_changes: an absent section
is skipped, a present one keeps exactly the rows whose name does not end
in .ddeb. -/
def stripDdebs : Option (List ChangesEntry) → Option (List ChangesEntry)
  | none => none
  | some l => some (l.filter (fun e => !(endsWithStr e.name ".ddeb")))

/-- remove_ddebs_from_changes: apply the section filter to
Checksums-Sha1, Checksums-Sha256 and Files, leaving everything else as
written. -/
def remove_ddebs_from_changes (c : ChangesFile) : ChangesFile :=
  { c with
    checksumsSha1 := stripDdebs c.checksumsSha1,
    checksumsSha256 := stripDdebs c.checksumsSha256,
    files := stripDdebs c.files }

/-! ### Repository state, oracles and event traces -/

/-- External effects of the modelled code, recorded in order.  Commands
carry the arguments the claims talk about. -/
inductive Cmd
  | mkdtemp
  | gitClone
  | gitReset
  | gitRevParse
  | rmtree
  | ensureDirs
  | removeDdebs (file : String)
  | gpgGenKey
  | saveKeyId
  | gpgExportKey
  | repreproInclude (series : String) (file : String)
  | repreproExport
  | chooseBuilder
  | builderBuild
  | saveCounter
  | saveBuildRecord
deriving DecidableEq, Repr

/-- Persistent repository-side state: the key_id column (none models a
falsy value, NULL or empty), whether repo.key exists in the export
directory, the changes files successfully included into the package pool
(in order), a count of reprepro export invocations so far (used to index
the export oracle), and the on-disk contents of each changes manifest. -/
structure RepoState where
  keyId : Option String
  keyFileExists : Bool
  included : List String
  exportCalls : Nat
  manifests : String → ChangesFile

/-- Outcomes of the external tools the repository invokes: the key id
parsed from the key-generation output (none when no key line appeared),
the exit status of reprepro include per changes file, and the exit
status of the n-th reprepro export invocation. -/
structure RepoOracle where
  genKey : Option String
  includeOk : String → Bool
  exportOk : Nat → Bool

/-- Result of one repository operation: the state afterwards, the events
emitted, and whether it finished without raising. -/
structure StepResult where
  st : RepoState
  trace : List Cmd
  ok : Bool

/-- Repository.ensure_key: when key_id is falsy, run the key generator
and persist whatever it returned. -/
def Repository.ensure_key (o : RepoOracle) (st : RepoState) :
    RepoState × List Cmd :=
  if pyTruthy st.keyId then (st, [])
  else ({ st with keyId := o.genKey }, [Cmd.gpgGenKey, Cmd.saveKeyId])

/-- Repository.export_key: write repo.key to the export directory only
when it does not exist yet. -/
def Repository.export_key (st : RepoState) : RepoState × List Cmd :=
  if st.keyFileExists then (st, [])
  else ({ st with keyFileExists := true }, [Cmd.gpgExportKey])

/-- Repository.export: ensure_key, ensure_directory_structure,
export_key, then one reprepro export invocation whose exit status comes
from the oracle.  (The name export is a Lean keyword, hence the suffix.) -/
def Repository.export_repo (o : RepoOracle) (st : RepoState) : StepResult :=
  let r1 := Repository.ensure_key o st
  let r2 := Repository.export_key r1.1
  { st := { r2.1 with exportCalls := r2.1.exportCalls + 1 },
    trace := r1.2 ++ [Cmd.ensureDirs] ++ r2.2 ++ [Cmd.repreproExport],
    ok := o.exportOk r2.1.exportCalls }

/-- Repository.process_changes: ensure_directory_structure, rewrite the
manifest through remove_ddebs_from_changes, run reprepro include for the
series, and on success run export; a failing include raises before
export runs. -/
def Repository.process_changes (o : RepoOracle) (series f : String)
    (st : RepoState) : StepResult :=
  let st1 := { st with
    manifests := fun q =>
      if q = f then remove_ddebs_from_changes (st.manifests f)
      else st.manifests q }
  let tr := [Cmd.ensureDirs, Cmd.removeDdebs f, Cmd.repreproInclude series f]
  if o.includeOk f then
    let st2 := { st1 with included := st1.included ++ [f] }
    let r := Repository.export_repo o st2
    { st := r.st, trace := tr ++ r.trace, ok := r.ok }
  else
    { st := st1, trace := tr, ok := false }

/-! ### Checkout and build attempt -/

/-- Outcomes of the git subprocesses run by checkout: exit status of
clone and of the optional hard reset, and the rev-parse result (stdout
on success). -/
structure GitOracle where
  cloneOk : Bool
  resetOk : Bool
  revParse : Except Unit String

/-- Result of checkout: the resolved sha (or the propagated error) and
the emitted events. -/
structure CheckoutResult where
  sha : Except Unit String
  trace : List Cmd

/-- PackageSource.checkout: make a temporary directory, clone the
branch, optionally hard-reset to a requested sha, resolve HEAD; any
failure removes the temporary directory before the error propagates,
while on success the directory is handed to the caller. -/
def PackageSource.checkout (g : GitOracle) (sha0 : Option String) :
    CheckoutResult :=
  match sha0 with
  | some _ =>
    if !g.cloneOk then
      { sha := Except.error (), trace := [Cmd.mkdtemp, Cmd.gitClone, Cmd.rmtree] }
    else if !g.resetOk then
      { sha := Except.error (),
        trace := [Cmd.mkdtemp, Cmd.gitClone, Cmd.gitReset, Cmd.rmtree] }
    else
      match g.revParse with
      | Except.error _ =>
        { sha := Except.error (),
          trace := [Cmd.mkdtemp, Cmd.gitClone, Cmd.gitReset, Cmd.gitRevParse,
                    Cmd.rmtree] }
      | Except.ok out =>
        { sha := Except.ok out.trim,
          trace := [Cmd.mkdtemp, Cmd.gitClone, Cmd.gitReset, Cmd.gitRevParse] }
  | none =>
    if !g.cloneOk then
      { sha := Except.error (), trace := [Cmd.mkdtemp, Cmd.gitClone, Cmd.rmtree] }
    else
      match g.revParse with
      | Except.error _ =>
        { sha := Except.error (),
          trace := [Cmd.mkdtemp, Cmd.gitClone, Cmd.gitRevParse, Cmd.rmtree] }
      | Except.ok out =>
        { sha := Except.ok out.trim,
          trace := [Cmd.mkdtemp, Cmd.gitClone, Cmd.gitRevParse] }

/-- Everything external that one build attempt consumes: git outcomes,
whether a builder strategy was found, whether the builder ran to
completion, the scratch-directory listing after the build, and the
repository-tool oracle. -/
structure BuildOracle where
  git : GitOracle
  chooseBuilderOk : Bool
  builderOk : Bool
  listdir : List String
  repo : RepoOracle

/-- The for-loop of build_real over the collected changes files: process
each in turn, stopping at the first failure, whose exception propagates. -/
def PackageSource.process_changes_list (o : RepoOracle) (series : String) :
    List String → RepoState → StepResult
  | [], st => { st := st, trace := [], ok := true }
  | f :: fs, st =>
    let r := Repository.process_changes o series f st
    if r.ok then
      let r2 := PackageSource.process_changes_list o series fs r.st
      { st := r2.st, trace := r.trace ++ r2.trace, ok := r2.ok }
    else
      { st := r.st, trace := r.trace, ok := false }

/-- Result of one build attempt: the persisted build counter, the
repository state, the event trace and whether the attempt succeeded. -/
structure BuildOutcome where
  counter : Int
  st : RepoState
  trace : List Cmd
  ok : Bool

/-- PackageSource.build_real: increment and persist the build counter,
create the build record, check out the source (a checkout failure
propagates after its own cleanup), then inside try/finally choose a
builder, run it, process every collected changes file and export once
more; the finally clause always removes the temporary directory. -/
def PackageSource.build_real (o : BuildOracle) (series : String) (c0 : Int)
    (st : RepoState) : BuildOutcome :=
  let c := c0 + 1
  let co := PackageSource.checkout o.git none
  match co.sha with
  | Except.error _ =>
    { counter := c, st := st,
      trace := [Cmd.saveCounter, Cmd.saveBuildRecord] ++ co.trace, ok := false }
  | Except.ok _ =>
    let t1 := [Cmd.saveCounter, Cmd.saveBuildRecord] ++ co.trace
        ++ [Cmd.saveBuildRecord]
    if !o.chooseBuilderOk then
      { counter := c, st := st, trace := t1 ++ [Cmd.chooseBuilder, Cmd.rmtree],
        ok := false }
    else if !o.builderOk then
      { counter := c, st := st,
        trace := t1 ++ [Cmd.chooseBuilder, Cmd.builderBuild, Cmd.rmtree],
        ok := false }
    else
      let changes := o.listdir.filter (fun s => endsWithStr s ".changes")
      let r := PackageSource.process_changes_list o.repo series changes st
      if !r.ok then
        { counter := c, st := r.st,
          trace := t1 ++ [Cmd.chooseBuilder, Cmd.builderBuild] ++ r.trace
              ++ [Cmd.rmtree],
          ok := false }
      else
        let r2 := Repository.export_repo o.repo r.st
        { counter := c, st := r2.st,
          trace := t1 ++ [Cmd.chooseBuilder, Cmd.builderBuild] ++ r.trace
              ++ r2.trace ++ [Cmd.rmtree],
          ok := r2.ok }

/-- Success of one process_changes call started at a given export-call
count: include must exit zero and so must the export it triggers. -/
def procOk (o : RepoOracle) (f : String) (calls : Nat) : Bool :=
  o.includeOk f && o.exportOk calls

/-- The changes files for which a reprepro include was attempted, in
order, read off a trace. -/
def processedOf (tr : List Cmd) : List String :=
  tr.filterMap (fun c =>
    match c with
    | Cmd.repreproInclude _ f => some f
    | _ => none)

/-! ### Supporting lemmas about the repository operations -/

/-- Fields and trace facts for one Repository.export invocation. -/
theorem export_repo_spec (o : RepoOracle) (st : RepoState) :
    (Repository.export_repo o st).ok = o.exportOk st.exportCalls
    ∧ (Repository.export_repo o st).st.exportCalls = st.exportCalls + 1
    ∧ (Repository.export_repo o st).st.included = st.included
    ∧ (Repository.export_repo o st).st.manifests = st.manifests
    ∧ processedOf (Repository.export_repo o st).trace = []
    ∧ Cmd.rmtree ∉ (Repository.export_repo o st).trace
    ∧ Cmd.mkdtemp ∉ (Repository.export_repo o st).trace := by
  unfold Repository.export_repo Repository.ensure_key Repository.export_key
  by_cases h1 : pyTruthy st.keyId <;> by_cases h2 : st.keyFileExists <;>
    simp [h1, h2, processedOf]

/-- Fields and trace facts for one Repository.process_changes
invocation. -/
theorem process_changes_spec (o : RepoOracle) (series f : String)
    (st : RepoState) :
    (Repository.process_changes o series f st).ok = procOk o f st.exportCalls
    ∧ (Repository.process_changes o series f st).st.included
        = st.included ++ (if o.includeOk f then [f] else [])
    ∧ (Repository.process_changes o series f st).st.exportCalls
        = st.exportCalls + (if o.includeOk f then 1 else 0)
    ∧ processedOf (Repository.process_changes o series f st).trace = [f]
    ∧ Cmd.rmtree ∉ (Repository.process_changes o series f st).trace
    ∧ Cmd.mkdtemp ∉ (Repository.process_changes o series f st).trace := by
  by_cases hi : o.includeOk f
  · obtain ⟨e1, e2, e3, e4, e5, e6, e7⟩ := export_repo_spec o
      { st with
        manifests := fun q =>
          if q = f then remove_ddebs_from_changes (st.manifests f)
          else st.manifests q,
        included := st.included ++ [f] }
    refine ⟨by simp [Repository.process_changes, procOk, hi, e1],
            by simp [Repository.process_changes, hi, e3],
            by simp [Repository.process_changes, hi, e2],
            ?_,
            by simp [Repository.process_changes, hi, e6],
            by simp [Repository.process_changes, hi, e7]⟩
    show processedOf (Repository.process_changes o series f st).trace = [f]
    simp only [Repository.process_changes, hi, if_true]
    simp only [processedOf, List.filterMap_append]
    simp only [processedOf] at e5
    rw [e5]
    rfl
  · simp [Repository.process_changes, procOk, hi, processedOf]

/-! ### C2: the build counter -/

/-- C2: after every build attempt, successful or not, the persisted
build counter is the counter before the attempt plus one, so it never
decreases. -/
theorem claim_C2_build_counter (o : BuildOracle) (series : String)
    (c0 : Int) (st : RepoState) :
    (PackageSource.build_real o series c0 st).counter = c0 + 1
    ∧ c0 < (PackageSource.build_real o series c0 st).counter := by
  have h : (PackageSource.build_real o series c0 st).counter = c0 + 1 := by
    cases hsha : (PackageSource.checkout o.git none).sha with
    | error e => simp [PackageSource.build_real, hsha]
    | ok s =>
      simp only [PackageSource.build_real, hsha]
      split <;> try rfl
      split <;> try rfl
      split <;> rfl
  exact ⟨h, by rw [h]; omega⟩

/-! ### C5: key material is generated once -/

/-- C5: starting from a repository with falsy key_id and no repo.key on
disk, the first export persists the generated key id and writes the key
file, and a second export neither runs the key generator nor rewrites
the key file, leaving both unchanged. -/
theorem claim_C5_key_idempotent (o : RepoOracle) (st : RepoState)
    (h1 : pyTruthy st.keyId = false) (h2 : st.keyFileExists = false)
    (h3 : pyTruthy o.genKey = true) :
    (Repository.export_repo o st).st.keyId = o.genKey
    ∧ (Repository.export_repo o st).st.keyFileExists = true
    ∧ Cmd.gpgGenKey ∈ (Repository.export_repo o st).trace
    ∧ Cmd.gpgExportKey ∈ (Repository.export_repo o st).trace
    ∧ Cmd.gpgGenKey ∉
        (Repository.export_repo o (Repository.export_repo o st).st).trace
    ∧ Cmd.gpgExportKey ∉
        (Repository.export_repo o (Repository.export_repo o st).st).trace
    ∧ (Repository.export_repo o (Repository.export_repo o st).st).st.keyId
        = o.genKey
    ∧ (Repository.export_repo o
        (Repository.export_repo o st).st).st.keyFileExists = true := by
  unfold Repository.export_repo Repository.ensure_key Repository.export_key
  simp [h1, h2, h3]

/-- Processing a list of changes files in which every file succeeds:
all are included in order, one export per file, and the loop reports
success. -/
theorem process_changes_list_ok (o : RepoOracle) (series : String) :
    ∀ (l : List String) (st : RepoState),
    (∀ i : Fin l.length, procOk o (l.get i) (st.exportCalls + i.val) = true) →
    (PackageSource.process_changes_list o series l st).ok = true
    ∧ (PackageSource.process_changes_list o series l st).st.included
        = st.included ++ l
    ∧ (PackageSource.process_changes_list o series l st).st.exportCalls
        = st.exportCalls + l.length
    ∧ processedOf (PackageSource.process_changes_list o series l st).trace
        = l := by
  intro l
  induction l with
  | nil =>
    intro st h
    simp [PackageSource.process_changes_list, processedOf]
  | cons f fs ih =>
    intro st h
    obtain ⟨p1, p2, p3, p4, p5, p6⟩ := process_changes_spec o series f st
    have h0 : procOk o f st.exportCalls = true := by simpa using h ⟨0, by simp⟩
    have h1 := h0
    simp only [procOk, Bool.and_eq_true] at h1
    have hinc : o.includeOk f = true := h1.1
    have hok : (Repository.process_changes o series f st).ok = true := by
      rw [p1]; exact h0
    have hradv :
        (Repository.process_changes o series f st).st.exportCalls
          = st.exportCalls + 1 := by
      rw [p3, hinc]; simp
    have hrinc :
        (Repository.process_changes o series f st).st.included
          = st.included ++ [f] := by
      rw [p2, hinc]; simp
    have hshift : ∀ i : Fin fs.length,
        procOk o (fs.get i)
          ((Repository.process_changes o series f st).st.exportCalls + i.val)
          = true := by
      intro i
      have := h ⟨i.val + 1, by simp⟩
      rw [hradv]
      have harith : st.exportCalls + (i.val + 1)
          = st.exportCalls + 1 + i.val := by omega
      simpa [harith] using this
    obtain ⟨q1, q2, q3, q4⟩ :=
      ih (Repository.process_changes o series f st).st hshift
    refine ⟨?_, ?_, ?_, ?_⟩ <;>
      simp only [PackageSource.process_changes_list, hok, if_true]
    · exact q1
    · rw [q2, hrinc]; simp
    · rw [q3, hradv]; simp only [List.length_cons]; omega
    · simp only [processedOf, List.filterMap_append] at q4 ⊢
      simp only [processedOf] at p4
      rw [p4, q4]
      rfl

/-- Processing a list of changes files never touches the temporary
build directory. -/
theorem process_changes_list_clean (o : RepoOracle) (series : String) :
    ∀ (l : List String) (st : RepoState),
    Cmd.rmtree ∉ (PackageSource.process_changes_list o series l st).trace
    ∧ Cmd.mkdtemp ∉
        (PackageSource.process_changes_list o series l st).trace := by
  intro l
  induction l with
  | nil =>
    intro st
    simp [PackageSource.process_changes_list]
  | cons f fs ih =>
    intro st
    obtain ⟨p1, p2, p3, p4, p5, p6⟩ := process_changes_spec o series f st
    by_cases hok : (Repository.process_changes o series f st).ok <;>
      simp only [PackageSource.process_changes_list, hok, if_true,
        if_false, Bool.false_eq_true] <;>
      simp_all [List.mem_append]

/-- Processing a list of changes files in which the files of pre all
succeed and then f fails: the loop stops at f with a failure, exactly
the files of pre (plus f when its include succeeded) are in the pool,
and no later file is ever attempted. -/
theorem process_changes_list_fail (o : RepoOracle) (series : String) :
    ∀ (pre : List String) (f : String) (post : List String) (st : RepoState),
    (∀ i : Fin pre.length,
      procOk o (pre.get i) (st.exportCalls + i.val) = true) →
    procOk o f (st.exportCalls + pre.length) = false →
    (PackageSource.process_changes_list o series (pre ++ f :: post) st).ok
        = false
    ∧ (PackageSource.process_changes_list o series (pre ++ f :: post)
          st).st.included
        = st.included ++ pre ++ (if o.includeOk f then [f] else [])
    ∧ processedOf
        (PackageSource.process_changes_list o series (pre ++ f :: post)
          st).trace
        = pre ++ [f] := by
  intro pre
  induction pre with
  | nil =>
    intro f post st hpre hf
    obtain ⟨p1, p2, p3, p4, p5, p6⟩ := process_changes_spec o series f st
    have hok : (Repository.process_changes o series f st).ok = false := by
      rw [p1]; simpa using hf
    simp only [List.nil_append, PackageSource.process_changes_list, hok,
      Bool.false_eq_true, if_false]
    refine ⟨by trivial, by simpa using p2, by simpa using p4⟩
  | cons g pre2 ih =>
    intro f post st hpre hf
    obtain ⟨p1, p2, p3, p4, p5, p6⟩ := process_changes_spec o series g st
    have h0 : procOk o g st.exportCalls = true := by
      simpa using hpre ⟨0, by simp⟩
    have h1 := h0
    simp only [procOk, Bool.and_eq_true] at h1
    have hinc : o.includeOk g = true := h1.1
    have hok : (Repository.process_changes o series g st).ok = true := by
      rw [p1]; exact h0
    have hradv :
        (Repository.process_changes o series g st).st.exportCalls
          = st.exportCalls + 1 := by
      rw [p3, hinc]; simp
    have hrinc :
        (Repository.process_changes o series g st).st.included
          = st.included ++ [g] := by
      rw [p2, hinc]; simp
    have hshift : ∀ i : Fin pre2.length,
        procOk o (pre2.get i)
          ((Repository.process_changes o series g st).st.exportCalls + i.val)
          = true := by
      intro i
      have := hpre ⟨i.val + 1, by simp⟩
      rw [hradv]
      have harith : st.exportCalls + (i.val + 1)
          = st.exportCalls + 1 + i.val := by omega
      simpa [harith] using this
    have hfshift :
        procOk o f
          ((Repository.process_changes o series g st).st.exportCalls
            + pre2.length) = false := by
      rw [hradv]
      have harith : st.exportCalls + 1 + pre2.length
          = st.exportCalls + (g :: pre2).length := by simp; omega
      rw [harith]; exact hf
    obtain ⟨q1, q2, q3⟩ :=
      ih f post (Repository.process_changes o series g st).st hshift hfshift
    refine ⟨?_, ?_, ?_⟩ <;>
      simp only [List.cons_append, PackageSource.process_changes_list, hok,
        if_true, List.append_eq]
    · exact q1
    · rw [q2, hrinc]; simp
    · simp only [processedOf, List.filterMap_append] at q3 ⊢
      simp only [processedOf] at p4
      rw [p4, q3]
      simp

/-- Per-branch facts about checkout: exactly one temporary directory is
created; on failure it is removed, with the removal as the very last
action before the error propagates; on success it is handed to the
caller un-removed. -/
theorem checkout_spec (g : GitOracle) (sha0 : Option String) :
    (PackageSource.checkout g sha0).trace.count Cmd.mkdtemp = 1
    ∧ ((PackageSource.checkout g sha0).sha = Except.error () →
        (PackageSource.checkout g sha0).trace.count Cmd.rmtree = 1
        ∧ (PackageSource.checkout g sha0).trace.getLast? = some Cmd.rmtree)
    ∧ (∀ s, (PackageSource.checkout g sha0).sha = Except.ok s →
        (PackageSource.checkout g sha0).trace.count Cmd.rmtree = 0) := by
  unfold PackageSource.checkout
  rcases sha0 with _ | s0 <;>
    rcases hrv : g.revParse with e | out <;>
    by_cases hc : g.cloneOk <;> by_cases hr : g.resetOk <;>
      simp [hc, hr, hrv]

/-! ### C6: the temporary working area is always released -/

/-- C6: on a checkout failure the temporary directory removal is the
last action before the error propagates; and a full build attempt, on
every path (checkout failure, no builder found, builder failure,
publish failure, success), creates exactly one temporary directory and
removes exactly one. -/
theorem claim_C6_tmpdir_cleanup (g : GitOracle) (sha0 : Option String)
    (o : BuildOracle) (series : String) (c0 : Int) (st : RepoState) :
    ((PackageSource.checkout g sha0).sha = Except.error () →
      (PackageSource.checkout g sha0).trace.getLast? = some Cmd.rmtree)
    ∧ (PackageSource.build_real o series c0 st).trace.count Cmd.mkdtemp = 1
    ∧ (PackageSource.build_real o series c0 st).trace.count Cmd.rmtree = 1 := by
  obtain ⟨cs1, cs2, cs3⟩ := checkout_spec g sha0
  obtain ⟨bs1, bs2, bs3⟩ := checkout_spec o.git none
  refine ⟨fun h => (cs2 h).2, ?_⟩
  obtain ⟨cl1, cl2⟩ := process_changes_list_clean o.repo series
    (o.listdir.filter (fun s => endsWithStr s ".changes")) st
  have hcl1 : (PackageSource.process_changes_list o.repo series
      (o.listdir.filter (fun s => endsWithStr s ".changes")) st).trace.count
      Cmd.rmtree = 0 := List.count_eq_zero.mpr cl1
  have hcl2 : (PackageSource.process_changes_list o.repo series
      (o.listdir.filter (fun s => endsWithStr s ".changes")) st).trace.count
      Cmd.mkdtemp = 0 := List.count_eq_zero.mpr cl2
  obtain ⟨e1, e2, e3, e4, e5, e6, e7⟩ := export_repo_spec o.repo
    (PackageSource.process_changes_list o.repo series
      (o.listdir.filter (fun s => endsWithStr s ".changes")) st).st
  have he6 : (Repository.export_repo o.repo
      (PackageSource.process_changes_list o.repo series
        (o.listdir.filter (fun s => endsWithStr s ".changes")) st).st).trace.count
      Cmd.rmtree = 0 := List.count_eq_zero.mpr e6
  have he7 : (Repository.export_repo o.repo
      (PackageSource.process_changes_list o.repo series
        (o.listdir.filter (fun s => endsWithStr s ".changes")) st).st).trace.count
      Cmd.mkdtemp = 0 := List.count_eq_zero.mpr e7
  cases hsha : (PackageSource.checkout o.git none).sha with
  | error e =>
    have he : (PackageSource.checkout o.git none).sha = Except.error () := by
      cases e
      exact hsha
    obtain ⟨hb1, hb2⟩ := bs2 he
    constructor <;>
      simp +decide [PackageSource.build_real, hsha, List.count_append, bs1,
        hb1, List.count_cons, List.count_nil]
  | ok s =>
    have h0 : (PackageSource.checkout o.git none).trace.count Cmd.rmtree = 0 :=
      bs3 s hsha
    by_cases hcb : o.chooseBuilderOk <;> by_cases hbb : o.builderOk <;>
      by_cases hpr : (PackageSource.process_changes_list o.repo series
        (o.listdir.filter (fun s => endsWithStr s ".changes")) st).ok <;>
      constructor <;>
      simp +decide [PackageSource.build_real, hsha, hcb, hbb, hpr,
        List.count_append, bs1, h0, hcl1, hcl2, he6, he7,
        List.count_cons, List.count_nil]

/-! ### C3: no rollback, stop at the first failing changes file -/

/-- C3: in a build attempt whose checkout and builder succeed and whose
collected changes files are pre, then f, then post, if every file of
pre publishes successfully and f fails (its include exits nonzero, or
the export it triggers does), then the attempt is marked failed, the
repository pool still contains exactly the files of pre (plus f itself
only when its include succeeded and a later step failed), and no file
after f is ever processed. -/
theorem claim_C3_partial_publish (o : BuildOracle) (series : String)
    (c0 : Int) (st : RepoState) (pre post : List String) (f : String)
    (hclone : o.git.cloneOk = true)
    (hrev : ∃ s, o.git.revParse = Except.ok s)
    (hcb : o.chooseBuilderOk = true)
    (hbb : o.builderOk = true)
    (hlist : o.listdir.filter (fun s => endsWithStr s ".changes")
        = pre ++ f :: post)
    (hpre : ∀ i : Fin pre.length,
        procOk o.repo (pre.get i) (st.exportCalls + i.val) = true)
    (hf : procOk o.repo f (st.exportCalls + pre.length) = false) :
    (PackageSource.build_real o series c0 st).ok = false
    ∧ (PackageSource.build_real o series c0 st).st.included
        = st.included ++ pre ++ (if o.repo.includeOk f then [f] else [])
    ∧ processedOf (PackageSource.build_real o series c0 st).trace
        = pre ++ [f] := by
  obtain ⟨s, hs⟩ := hrev
  have hco : PackageSource.checkout o.git none
      = { sha := Except.ok s.trim,
          trace := [Cmd.mkdtemp, Cmd.gitClone, Cmd.gitRevParse] } := by
    unfold PackageSource.checkout
    simp [hclone, hs]
  obtain ⟨q1, q2, q3⟩ :=
    process_changes_list_fail o.repo series pre f post st hpre hf
  rw [← hlist] at q1 q2 q3
  refine ⟨?_, ?_, ?_⟩ <;>
    simp only [PackageSource.build_real, hco, hcb, hbb, q1,
      Bool.not_true, Bool.false_eq_true, if_false, if_true,
      Bool.not_false, Bool.true_eq_false]
  · exact q2
  · simp only [processedOf, List.filterMap_append] at q3 ⊢
    rw [q3]
    simp

/-! ### C4: ddeb stripping, then include, then export -/

/-- What the stripping of one manifest section must achieve: an absent
section stays absent; a present one becomes a subsequence of the
original holding exactly the rows whose name does not end in .ddeb. -/
def strippedFrom (old new : Option (List ChangesEntry)) : Prop :=
  (old = none → new = none)
  ∧ ∀ l, old = some l → ∃ l2, new = some l2 ∧ List.Sublist l2 l
      ∧ ∀ e, e ∈ l2 ↔ (e ∈ l ∧ endsWithStr e.name ".ddeb" = false)

/-- The section filter of remove_ddebs_from_changes satisfies
strippedFrom. -/
theorem stripDdebs_strippedFrom (s : Option (List ChangesEntry)) :
    strippedFrom s (stripDdebs s) := by
  unfold strippedFrom
  cases s with
  | none =>
    constructor
    · intro _
      rfl
    · intro l h
      cases h
  | some l =>
    constructor
    · intro h
      cases h
    intro l0 h0
    have : l = l0 := Option.some.inj h0
    subst this
    refine ⟨l.filter (fun e => !(endsWithStr e.name ".ddeb")), rfl,
      List.filter_sublist l, ?_⟩
    intro e
    simp [List.mem_filter]

/-- C4: process_changes rewrites the named manifest so that each of its
checksum and file sections is the original minus exactly the .ddeb
rows, leaves every other manifest untouched, and (when the include
succeeds) its event trace is the directory preparation, the ddeb strip
and the include for the named series, followed by a block whose final
action is the reprepro export. -/
theorem claim_C4_ddeb_strip (o : RepoOracle) (series f : String)
    (st : RepoState) (h : o.includeOk f = true) :
    strippedFrom (st.manifests f).checksumsSha1
      ((Repository.process_changes o series f st).st.manifests f).checksumsSha1
    ∧ strippedFrom (st.manifests f).checksumsSha256
      ((Repository.process_changes o series f st).st.manifests f).checksumsSha256
    ∧ strippedFrom (st.manifests f).files
      ((Repository.process_changes o series f st).st.manifests f).files
    ∧ (∀ q, q ≠ f →
        (Repository.process_changes o series f st).st.manifests q
          = st.manifests q)
    ∧ (∃ t, (Repository.process_changes o series f st).trace
          = [Cmd.ensureDirs, Cmd.removeDdebs f, Cmd.repreproInclude series f]
              ++ t
        ∧ t.getLast? = some Cmd.repreproExport) := by
  have hm : (Repository.process_changes o series f st).st.manifests
      = fun q =>
          if q = f then remove_ddebs_from_changes (st.manifests f)
          else st.manifests q := by
    unfold Repository.process_changes
    by_cases hi : o.includeOk f
    · simp only [hi, if_true]
      exact (export_repo_spec o _).2.2.2.1
    · simp only [hi, Bool.false_eq_true, if_false]
  refine ⟨?_, ?_, ?_, ?_, ?_⟩
  · rw [hm]
    simp only [if_pos rfl, remove_ddebs_from_changes]
    exact stripDdebs_strippedFrom _
  · rw [hm]
    simp only [if_pos rfl, remove_ddebs_from_changes]
    exact stripDdebs_strippedFrom _
  · rw [hm]
    simp only [if_pos rfl, remove_ddebs_from_changes]
    exact stripDdebs_strippedFrom _
  · intro q hq
    rw [hm]
    simp [hq]
  · simp only [Repository.process_changes, h, if_true]
    refine ⟨(Repository.export_repo o _).trace, rfl, ?_⟩
    simp only [Repository.export_repo]
    exact List.getLast?_concat _

/-! ### BuildRecordLog: the rename-on-demand log file -/

/-- Pointwise update of a path-indexed file system. -/
def fsUpdate (fs : String → Option (List String)) (p : String)
    (v : Option (List String)) : String → Option (List String) :=
  fun q => if q = p then v else fs q

/-- The state the logger property manipulates: the contents of each log
file by path (none = no file), and the _saved_logpath attribute of the
build record (none before the first access). -/
structure LogState where
  fs : String → Option (List String)
  savedLogpath : Option String

/-- BuildRecord.logger with the computed buildlog path supplied: when
the path changed, an existing file at the old path is renamed to the
new path, and a fresh file handler is attached at the new path in
append mode (creating an empty file only when none exists there). -/
def BuildRecord.logger_access (p : String) (st : LogState) : LogState :=
  if some p = st.savedLogpath then st
  else
    let fs1 :=
      match st.savedLogpath with
      | some old =>
        match st.fs old with
        | some content => fsUpdate (fsUpdate st.fs old none) p (some content)
        | none => st.fs
      | none => st.fs
    let fs2 :=
      match fs1 p with
      | some _ => fs1
      | none => fsUpdate fs1 p (some [])
    { fs := fs2, savedLogpath := some p }

/-- One log line emitted through the currently attached file handler:
appended to the file at the saved path. -/
def BuildRecord.log_write (line : String) (st : LogState) : LogState :=
  match st.savedLogpath with
  | none => st
  | some p =>
    match st.fs p with
    | some content =>
      { st with fs := fsUpdate st.fs p (some (content ++ [line])) }
    | none => { st with fs := fsUpdate st.fs p (some [line]) }

/-- A sequence of log calls while the computed buildlog path is p: every
call goes through the logger property (which recomputes the path) and
then writes its line. -/
def BuildRecord.log_lines (p : String) (lines : List String)
    (st : LogState) : LogState :=
  lines.foldl
    (fun s l => BuildRecord.log_write l (BuildRecord.logger_access p s)) st

/-- Writing lines while the computed path equals the saved path only
appends to the file at that path. -/
theorem log_lines_steady (p : String) :
    ∀ (lines : List String) (st : LogState) (l0 : List String),
    st.savedLogpath = some p → st.fs p = some l0 →
    (BuildRecord.log_lines p lines st).fs p = some (l0 ++ lines)
    ∧ (BuildRecord.log_lines p lines st).savedLogpath = some p
    ∧ ∀ q, q ≠ p → (BuildRecord.log_lines p lines st).fs q = st.fs q := by
  intro lines
  induction lines with
  | nil =>
    intro st l0 h1 h2
    simp [BuildRecord.log_lines, h1, h2]
  | cons a as ih =>
    intro st l0 h1 h2
    have hacc : BuildRecord.logger_access p st = st := by
      unfold BuildRecord.logger_access
      simp [h1]
    have hw : BuildRecord.log_write a st
        = { st with fs := fsUpdate st.fs p (some (l0 ++ [a])) } := by
      unfold BuildRecord.log_write
      simp [h1, h2]
    have hstep : BuildRecord.log_lines p (a :: as) st
        = BuildRecord.log_lines p as
            (BuildRecord.log_write a (BuildRecord.logger_access p st)) := by
      simp [BuildRecord.log_lines]
    rw [hstep, hacc, hw]
    obtain ⟨r1, r2, r3⟩ := ih { st with fs := fsUpdate st.fs p (some (l0 ++ [a])) }
      (l0 ++ [a]) h1 (by simp [fsUpdate])
    refine ⟨?_, r2, ?_⟩
    · rw [r1]
      simp
    · intro q hq
      rw [r3 q hq]
      simp [fsUpdate, hq]

/-- C7: writing the pre lines while the provisional path is current,
then accessing the logger once the version-qualified path is computed
(which renames the file), then writing the post lines, leaves at the
new path exactly the pre lines followed by the post lines, removes the
file at the old path, and records the new path as saved. -/
theorem claim_C7_log_continuity (p1 p2 : String) (pre post : List String)
    (st0 : LogState) (hne : p1 ≠ p2)
    (h0 : st0.savedLogpath = none)
    (h1 : st0.fs p1 = none) (h2 : st0.fs p2 = none) :
    (BuildRecord.log_lines p2 post
        (BuildRecord.logger_access p2
          (BuildRecord.log_lines p1 pre st0))).fs p2
      = some (pre ++ post)
    ∧ (BuildRecord.log_lines p2 post
        (BuildRecord.logger_access p2
          (BuildRecord.log_lines p1 pre st0))).fs p1
      = none
    ∧ (BuildRecord.log_lines p2 post
        (BuildRecord.logger_access p2
          (BuildRecord.log_lines p1 pre st0))).savedLogpath
      = some p2 := by
  cases pre with
  | nil =>
    have e0 : BuildRecord.log_lines p1 [] st0 = st0 := by
      simp [BuildRecord.log_lines]
    have ea : BuildRecord.logger_access p2 st0
        = { fs := fsUpdate st0.fs p2 (some []), savedLogpath := some p2 } := by
      unfold BuildRecord.logger_access
      simp [h0, h2]
    obtain ⟨r1, r2, r3⟩ := log_lines_steady p2 post
      { fs := fsUpdate st0.fs p2 (some []), savedLogpath := some p2 } []
      rfl (by simp [fsUpdate])
    rw [e0, ea]
    refine ⟨by simpa using r1, ?_, r2⟩
    rw [r3 p1 hne]
    simp [fsUpdate, hne, h1]
  | cons a as =>
    have ea1 : BuildRecord.logger_access p1 st0
        = { fs := fsUpdate st0.fs p1 (some []), savedLogpath := some p1 } := by
      unfold BuildRecord.logger_access
      simp [h0, h1]
    have ew1 : BuildRecord.log_write a
        { fs := fsUpdate st0.fs p1 (some []), savedLogpath := some p1 }
        = { fs := fsUpdate (fsUpdate st0.fs p1 (some [])) p1 (some [a]),
            savedLogpath := some p1 } := by
      unfold BuildRecord.log_write
      simp [fsUpdate]
    have hstep : BuildRecord.log_lines p1 (a :: as) st0
        = BuildRecord.log_lines p1 as
            (BuildRecord.log_write a (BuildRecord.logger_access p1 st0)) := by
      simp [BuildRecord.log_lines]
    obtain ⟨s1, s2, s3⟩ := log_lines_steady p1 as
      { fs := fsUpdate (fsUpdate st0.fs p1 (some [])) p1 (some [a]),
        savedLogpath := some p1 } [a] rfl (by simp [fsUpdate])
    have hfsp2 :
        (BuildRecord.log_lines p1 as
          { fs := fsUpdate (fsUpdate st0.fs p1 (some [])) p1 (some [a]),
            savedLogpath := some p1 }).fs p2 = none := by
      rw [s3 p2 (Ne.symm hne)]
      simp [fsUpdate, Ne.symm hne, h2]
    have eacc : BuildRecord.logger_access p2
        (BuildRecord.log_lines p1 as
          { fs := fsUpdate (fsUpdate st0.fs p1 (some [])) p1 (some [a]),
            savedLogpath := some p1 })
        = { fs := fsUpdate
              (fsUpdate
                (BuildRecord.log_lines p1 as
                  { fs := fsUpdate (fsUpdate st0.fs p1 (some [])) p1 (some [a]),
                    savedLogpath := some p1 }).fs p1 none)
              p2 (some ([a] ++ as)),
            savedLogpath := some p2 } := by
      unfold BuildRecord.logger_access
      simp [s2, s1, Ne.symm hne, fsUpdate]
    obtain ⟨t1, t2, t3⟩ := log_lines_steady p2 post
      { fs := fsUpdate
          (fsUpdate
            (BuildRecord.log_lines p1 as
              { fs := fsUpdate (fsUpdate st0.fs p1 (some [])) p1 (some [a]),
                savedLogpath := some p1 }).fs p1 none)
          p2 (some ([a] ++ as)),
        savedLogpath := some p2 } ([a] ++ as) rfl (by simp [fsUpdate])
    rw [hstep, ea1, ew1, eacc]
    refine ⟨by simpa using t1, ?_, t2⟩
    rw [t3 p1 hne]
    simp [fsUpdate, hne]

/-! ### Concrete fixtures used by the witnesses -/

/-- A manifest whose every section references foo.ddeb and foo.deb. -/
def ddebEntry : ChangesEntry := { name := "foo.ddeb", rowData := [] }

/-- The row for the ordinary binary package foo.deb. -/
def debEntry : ChangesEntry := { name := "foo.deb", rowData := [] }

/-- A concrete upload manifest for the witnesses. -/
def manifestW : ChangesFile :=
  { checksumsSha1 := some [ddebEntry, debEntry],
    checksumsSha256 := some [ddebEntry, debEntry],
    files := some [ddebEntry, debEntry],
    otherFields := [] }

/-- A fresh repository: no key, no key file, empty pool. -/
def stW : RepoState :=
  { keyId := none, keyFileExists := false, included := [], exportCalls := 0,
    manifests := fun _ => manifestW }

/-- Tool outcomes for the witnesses: key generation yields a key id,
every include succeeds except the one for b.changes, exports succeed. -/
def repoOracleW : RepoOracle :=
  { genKey := some "ABCD1234",
    includeOk := fun s => s != "b.changes",
    exportOk := fun _ => true }

/-- Git outcomes for the witnesses: everything succeeds. -/
def gitOracleW : GitOracle :=
  { cloneOk := true, resetOk := true, revParse := Except.ok "deadbeef" }

/-- A build attempt that collects three changes files (and one stray
file), of which the second fails to include. -/
def buildOracleW : BuildOracle :=
  { git := gitOracleW, chooseBuilderOk := true, builderOk := true,
    listdir := ["a.changes", "b.changes", "c.changes", "README"],
    repo := repoOracleW }

/-- An empty log file system with no saved path. -/
def logState0 : LogState := { fs := fun _ => none, savedLogpath := none }

/-- Witness for C3: of three collected changes files with the second
failing, only the first is published, the third is never processed, and
the attempt fails. -/
theorem claim_C3_partial_publish_witness :
    (PackageSource.build_real buildOracleW "trusty" 0 stW).ok = false
    ∧ (PackageSource.build_real buildOracleW "trusty" 0 stW).st.included
        = ["a.changes"]
    ∧ processedOf (PackageSource.build_real buildOracleW "trusty" 0 stW).trace
        = ["a.changes", "b.changes"] := by
  have h := claim_C3_partial_publish buildOracleW "trusty" 0 stW
    ["a.changes"] ["c.changes"] "b.changes"
    rfl ⟨"deadbeef", rfl⟩ rfl rfl (by decide) (by decide) (by decide)
  refine ⟨h.1, ?_, h.2.2⟩
  rw [h.2.1]
  decide

/-- Witness for C4: after process_changes the manifest referencing
foo.ddeb and foo.deb lists only foo.deb, and the trace ends with the
export. -/
theorem claim_C4_ddeb_strip_witness :
    ((Repository.process_changes repoOracleW "trusty" "a.changes"
        stW).st.manifests "a.changes").files = some [debEntry]
    ∧ (Repository.process_changes repoOracleW "trusty" "a.changes"
        stW).trace.getLast? = some Cmd.repreproExport := by
  have h := claim_C4_ddeb_strip repoOracleW "trusty" "a.changes" stW
    (by decide)
  exact ⟨by decide, by decide⟩

/-- Witness for C5: the generated key id is persisted by the first
export and the second export does not rerun the generator. -/
theorem claim_C5_key_idempotent_witness :
    (Repository.export_repo repoOracleW stW).st.keyId = some "ABCD1234"
    ∧ Cmd.gpgGenKey ∉
        (Repository.export_repo repoOracleW
          (Repository.export_repo repoOracleW stW).st).trace := by
  have h := claim_C5_key_idempotent repoOracleW stW rfl rfl (by decide)
  exact ⟨h.1, h.2.2.2.2.1⟩

/-- Witness for C6: a failed clone ends in the removal of the temporary
directory, and the partially failing build of the C3 witness still
removes its temporary directory exactly once. -/
theorem claim_C6_tmpdir_cleanup_witness :
    (PackageSource.checkout
        { cloneOk := false, resetOk := true, revParse := Except.ok "x" }
        none).trace.getLast? = some Cmd.rmtree
    ∧ (PackageSource.build_real buildOracleW "trusty" 0 stW).trace.count
        Cmd.rmtree = 1 := by
  have h := claim_C6_tmpdir_cleanup
    { cloneOk := false, resetOk := true, revParse := Except.ok "x" } none
    buildOracleW "trusty" 0 stW
  exact ⟨h.1 rfl, h.2.2⟩

/-- Witness for C7: one line before the rename and one after end up, in
order, in the file at the version-qualified path. -/
theorem claim_C7_log_continuity_witness :
    (BuildRecord.log_lines "x_1.0.log" ["line2"]
        (BuildRecord.logger_access "x_1.0.log"
          (BuildRecord.log_lines "x_7.tmp.log" ["line1"] logState0))).fs
        "x_1.0.log"
      = some ["line1", "line2"] := by
  have h := claim_C7_log_continuity "x_7.tmp.log" "x_1.0.log"
    ["line1"] ["line2"] logState0 (by decide) rfl rfl rfl
  exact h.1

end Buildsvc
